import Mathlib

/-!
# Verification of the agent-telemetry trace-context and writer core

A shallow embedding of the repository's core modules, translated from the
TypeScript source:

* `src/traceparent.ts` — W3C `traceparent` header parsing and formatting.
* `src/trace-context.ts` — span/context algebra (`normalizeTraceFlags`,
  `startSpan`, `startSpanFromTraceparent`).
* `src/browser.ts` — the browser trace context's `withSpan` scoped primitive.
* `src/entities.ts` — entity extraction from URL paths and event payloads.
* `src/error.ts` — `toSafeErrorLabel`.
* `src/index.ts` — the telemetry facade's `emit`.
* `src/writer.ts` — the rotating JSONL writer (`rotate` and `write`).

Strings are modelled as `List Char` (JavaScript strings are sequences of
code units; every value the claims touch is ASCII, where one character is
one UTF-8 byte, so file sizes are modelled by list length).  JavaScript
`undefined`/`null` is modelled by `Option`, and a thrown-and-caught
exception by an explicit error component of the result.
-/

/-- The character class `[\da-f]` of `TRACEPARENT_RE` and `UUID_RE` in the
source: the decimal digits together with the lowercase hex letters. -/
def lowerHexChars : List Char :=
  "0123456789abcdef".toList

/-- Membership in the regex character class `[\da-f]`. -/
def isLowerHexDigit (c : Char) : Bool :=
  decide (c ∈ lowerHexChars)

/-- JavaScript `String.prototype.toLowerCase`, per character.  All inputs the
source lowercases are ASCII, where it agrees with `Char.toLower`. -/
def jsCharToLower (c : Char) : Char :=
  c.toLower

/-- JavaScript `String.prototype.trim`: drop whitespace from both ends. -/
def jsTrim (l : List Char) : List Char :=
  ((l.dropWhile Char.isWhitespace).reverse.dropWhile Char.isWhitespace).reverse

/-- Parsed representation of a `traceparent` header
(interface `Traceparent` in `src/traceparent.ts`). -/
structure Traceparent where
  version : List Char
  traceId : List Char
  parentId : List Char
  traceFlags : List Char
deriving DecidableEq, Repr

/-- `'0'.repeat(32)` — the invalid all-zero trace id. -/
def ALL_ZEROS_32 : List Char := List.replicate 32 '0'

/-- `'0'.repeat(16)` — the invalid all-zero parent id. -/
def ALL_ZEROS_16 : List Char := List.replicate 16 '0'

/-- One fixed-width hex group of `TRACEPARENT_RE`: consume exactly `n`
characters of `[\da-f]`, returning the group and the rest. -/
def hexGroup (n : Nat) (l : List Char) : Option (List Char × List Char) :=
  if (l.take n).length = n ∧ (l.take n).all isLowerHexDigit = true then
    some (l.take n, l.drop n)
  else
    none

/-- Consume the literal `-` separator of `TRACEPARENT_RE`. -/
def expectDash : List Char → Option (List Char)
  | '-' :: rest => some rest
  | _ => none

/-- `TRACEPARENT_RE.exec`: the anchored match
`^([\da-f]{2})-([\da-f]{32})-([\da-f]{16})-([\da-f]{2})$` with its four
capture groups. -/
def traceparentMatch (s : List Char) : Option Traceparent :=
  match hexGroup 2 s with
  | none => none
  | some (version, r1) =>
    match expectDash r1 with
    | none => none
    | some r2 =>
      match hexGroup 32 r2 with
      | none => none
      | some (traceId, r3) =>
        match expectDash r3 with
        | none => none
        | some r4 =>
          match hexGroup 16 r4 with
          | none => none
          | some (parentId, r5) =>
            match expectDash r5 with
            | none => none
            | some r6 =>
              match hexGroup 2 r6 with
              | none => none
              | some (traceFlags, r7) =>
                if r7 = [] then some ⟨version, traceId, parentId, traceFlags⟩
                else none

/-- `parseTraceparent` from `src/traceparent.ts`: reject absent/empty input
(JS falsiness of `header`), trim and lowercase, match `TRACEPARENT_RE`, and
reject all-zero trace-id or parent-id. -/
def parseTraceparent (header : Option (List Char)) : Option Traceparent :=
  match header with
  | none => none
  | some h =>
    if h = [] then none
    else
      match traceparentMatch ((jsTrim h).map jsCharToLower) with
      | none => none
      | some tp =>
        if tp.traceId = ALL_ZEROS_32 ∨ tp.parentId = ALL_ZEROS_16 then none
        else some tp

/-- `formatTraceparent` from `src/traceparent.ts`:
`` `00-${traceId}-${parentId}-${flags}` `` (the source defaults `flags` to
`"01"`; callers here always pass it explicitly). -/
def formatTraceparent (traceId parentId flags : List Char) : List Char :=
  '0' :: '0' :: '-' :: (traceId ++ '-' :: (parentId ++ '-' :: flags))

/-- `normalizeTraceFlags` from `src/trace-context.ts`: absent or falsy
(empty) input defaults to `"01"`; otherwise lowercase and keep exactly when
the result matches `TRACE_FLAGS_RE = /^[\da-f]{2}$/`. -/
def normalizeTraceFlags (traceFlags : Option (List Char)) : List Char :=
  match traceFlags with
  | none => ['0', '1']
  | some tf =>
    if tf = [] then ['0', '1']
    else
      if (tf.map jsCharToLower).length = 2 ∧
          (tf.map jsCharToLower).all isLowerHexDigit = true then
        tf.map jsCharToLower
      else
        ['0', '1']

/-- `SpanStartOptions` from `src/trace-context.ts` (optional fields). -/
structure SpanStartOptions where
  traceId : Option (List Char)
  parentSpanId : Option (List Char)
  traceFlags : Option (List Char)
deriving DecidableEq, Repr

/-- `SpanContext` from `src/trace-context.ts`. -/
structure SpanContext where
  traceId : List Char
  spanId : List Char
  parentSpanId : Option (List Char)
  traceFlags : List Char
deriving DecidableEq, Repr

/-- The outputs of one call to `generateTraceId()` and `generateSpanId()`
(`src/ids.ts` draws them from `crypto.randomUUID()`; the random source is
modelled as an explicit parameter holding the ids this call would mint). -/
structure IdGen where
  freshTraceId : List Char
  freshSpanId : List Char
deriving DecidableEq, Repr

/-- `startSpan` from `src/trace-context.ts`: reuse or mint the trace id,
always mint the span id, pass the parent through, normalize flags. -/
def startSpan (gen : IdGen) (options : SpanStartOptions) : SpanContext :=
  { traceId := options.traceId.getD gen.freshTraceId
    spanId := gen.freshSpanId
    parentSpanId := options.parentSpanId
    traceFlags := normalizeTraceFlags options.traceFlags }

/-- `startSpanFromTraceparent` from `src/trace-context.ts`: parse the header
and start a span whose parent is the inbound span (`parsed?.traceId` etc.
are `Option.map` projections of the parse result). -/
def startSpanFromTraceparent (gen : IdGen) (header : Option (List Char)) : SpanContext :=
  startSpan gen
    { traceId := (parseTraceparent header).map (·.traceId)
      parentSpanId := (parseTraceparent header).map (·.parentId)
      traceFlags := (parseTraceparent header).map (·.traceFlags) }

/-- Result of a JavaScript computation: a value, or a thrown exception
(whose payload the source never inspects). -/
inductive JsResult (α : Type) where
  | ok (val : α)
  | thrown
deriving DecidableEq, Repr

/-- The mutable `BrowserTraceState` closed over by the browser trace
context in `src/browser.ts`. -/
structure BrowserTraceState where
  traceId : List Char
  parentSpanId : List Char
  traceFlags : List Char
deriving DecidableEq, Repr

/-- `withSpan` from `src/browser.ts`: remember the current parent pointer,
mint a child span, point the shared state's parent at the new span id for
the duration of the callback, and restore the saved parent in `finally` —
on the normal path and on the throwing path alike.  The callback `run` acts
on the shared mutable state (so it may itself call `withSpan`, which is how
nesting arises) and either returns a value or throws. -/
def withSpan {α : Type} (gen : IdGen) (st : BrowserTraceState)
    (run : BrowserTraceState → JsResult α × BrowserTraceState) :
    JsResult α × BrowserTraceState :=
  let currentParent := st.parentSpanId
  let span := startSpan gen
    { traceId := some st.traceId
      parentSpanId := some currentParent
      traceFlags := some st.traceFlags }
  let afterRun := run { st with parentSpanId := span.spanId }
  (afterRun.1, { afterRun.2 with parentSpanId := currentParent })

/-- `EntityPattern` from `src/types.ts`: a path segment to look for and the
key to record the following identifier under. -/
structure EntityPattern where
  segment : List Char
  key : List Char
deriving DecidableEq, Repr

/-- `UUID_RE = /^[\da-f]{8}-[\da-f]{4}-[\da-f]{4}-[\da-f]{4}-[\da-f]{12}$/i`
from `src/entities.ts`: five hyphen-separated hex groups of widths
8-4-4-4-12, case-insensitive (the `i` flag is the per-character lowercase
before the class test). -/
def UUID_RE (s : List Char) : Bool :=
  match s.splitOn '-' with
  | [a, b, c, d, e] =>
    a.length = 8 && b.length = 4 && c.length = 4 && d.length = 4 && e.length = 12 &&
      (a ++ b ++ c ++ d ++ e).all (fun ch => isLowerHexDigit (jsCharToLower ch))
  | _ => false

/-- JavaScript object property assignment `entities[key] = v` on a record:
overwrite the value in place if the key is present, append otherwise. -/
def recSet (m : List (List Char × List Char)) (k v : List Char) :
    List (List Char × List Char) :=
  match m with
  | [] => [(k, v)]
  | (k', v') :: rest => if k' = k then (k', v) :: rest else (k', v') :: recSet rest k v

/-- The body of the inner pattern loop of `extractEntities`: when the
current segment equals the pattern's `segment` and the following segment is
truthy (non-empty) and UUID-shaped, record it and set the `found` flag. -/
def stepPattern (seg next : List Char) (acc : List (List Char × List Char) × Bool)
    (p : EntityPattern) : List (List Char × List Char) × Bool :=
  if seg = p.segment ∧ next ≠ [] ∧ UUID_RE next = true then
    (recSet acc.1 p.key next, true)
  else
    acc

/-- One iteration of the outer segment loop of `extractEntities`: run every
pattern against the adjacent pair `sn` of segments. -/
def stepSegmentPair (patterns : List EntityPattern)
    (acc : List (List Char × List Char) × Bool) (sn : List Char × List Char) :
    List (List Char × List Char) × Bool :=
  patterns.foldl (stepPattern sn.1 sn.2) acc

/-- `extractEntities` from `src/entities.ts`: split the path on `/`, scan
every adjacent pair of segments against every pattern (`i` ranging over
`0 .. segments.length - 2`), and return the record only when at least one
pattern matched — `undefined` (here `none`) otherwise. -/
def extractEntities (path : List Char) (patterns : List EntityPattern) :
    Option (List (List Char × List Char)) :=
  let segments := path.splitOn '/'
  let result := (segments.zip segments.tail).foldl (stepSegmentPair patterns) ([], false)
  if result.2 = true then some result.1 else none

/-- A JavaScript `unknown` payload value as far as `extractEntitiesFromEvent`
inspects it: a string, or anything else. -/
inductive JsVal where
  | str (s : List Char)
  | nonString
deriving DecidableEq, Repr

/-- JavaScript property read `data[key]` on an object modelled as a
key-unique association list. -/
def jsGet (data : List (List Char × JsVal)) (k : List Char) : Option JsVal :=
  (data.find? (fun p => p.1 = k)).map (·.2)

/-- One iteration of the key loop of `extractEntitiesFromEvent`: record the
key when `data[key]` is a string. -/
def stepEventKey (d : List (List Char × JsVal))
    (acc : List (List Char × List Char) × Bool) (k : List Char) :
    List (List Char × List Char) × Bool :=
  match jsGet d k with
  | some (JsVal.str v) => (recSet acc.1 k v, true)
  | _ => acc

/-- `extractEntitiesFromEvent` from `src/entities.ts`: absent data is
`undefined`; otherwise record every requested key whose value is a string,
returning `undefined` when none is. -/
def extractEntitiesFromEvent (data : Option (List (List Char × JsVal)))
    (keys : List (List Char)) : Option (List (List Char × List Char)) :=
  match data with
  | none => none
  | some d =>
    let result := keys.foldl (stepEventKey d) ([], false)
    if result.2 = true then some result.1 else none

/-- The `unknown` argument of `toSafeErrorLabel`: an `Error` instance
carrying its `name` and `message`, or any non-`Error` value. -/
inductive CaughtValue where
  | error (name message : List Char)
  | notError
deriving DecidableEq, Repr

/-- `DEFAULT_ERROR_LABEL` from `src/error.ts`. -/
def DEFAULT_ERROR_LABEL : List Char := "Error".toList

/-- `MAX_ERROR_LABEL_LENGTH` from `src/error.ts`. -/
def MAX_ERROR_LABEL_LENGTH : Nat := 80

/-- `toSafeErrorLabel` from `src/error.ts`: non-`Error` values and errors
whose name trims to empty yield the constant label; otherwise the trimmed
name truncated by `slice(0, 80)`.  The `message` is never consulted. -/
def toSafeErrorLabel (err : CaughtValue) : List Char :=
  match err with
  | CaughtValue.notError => DEFAULT_ERROR_LABEL
  | CaughtValue.error name _message =>
    if jsTrim name = [] then DEFAULT_ERROR_LABEL
    else (jsTrim name).take MAX_ERROR_LABEL_LENGTH

/-- The body of the facade's `emit` in `src/index.ts`, before the enclosing
`try`/`catch`: check `isEnabled()` (its fresh per-call result is the
`enabled` argument), serialize the event (the outcome of `JSON.stringify`
on this event — which throws on circular structures — is the `serialized`
argument), and hand the line to the writer (modelled as the list of lines
handed over so far). -/
def emitBody (enabled : Bool) (serialized : JsResult (List Char))
    (written : List (List Char)) : JsResult (List (List Char)) :=
  if enabled = false then JsResult.ok written
  else
    match serialized with
    | JsResult.thrown => JsResult.thrown
    | JsResult.ok line => JsResult.ok (written ++ [line])

/-- `emit` from `src/index.ts`: the body wrapped in `try { … } catch {}`,
so a throw anywhere in the body leaves the writer untouched and `emit`
returns normally. -/
def emit (enabled : Bool) (serialized : JsResult (List Char))
    (written : List (List Char)) : List (List Char) :=
  match emitBody enabled serialized written with
  | JsResult.ok w => w
  | JsResult.thrown => written

/-- A filesystem error as the writer distinguishes them: `ENOENT`
(missing file) versus any other I/O failure. -/
inductive FsErr where
  | enoent
  | eio
deriving DecidableEq, Repr

/-- The writer's filesystem, restricted to the paths it touches: slot `0`
is the live file `logFile`, slot `i ≥ 1` is the backup `` `${logFile}.${i}` ``.
File contents are byte strings.  `broken` models a target path that is
unusable for writing (e.g. a directory where the file should be): while it
is set, every mutating/stat filesystem call throws. -/
structure FsEnv where
  files : Nat → Option (List Char)
  broken : Bool

/-- Point update of the slot map. -/
def fsSet (fs : Nat → Option (List Char)) (n : Nat) (c : List Char) :
    Nat → Option (List Char) :=
  fun m => if m = n then some c else fs m

/-- Point removal from the slot map. -/
def fsDel (fs : Nat → Option (List Char)) (n : Nat) : Nat → Option (List Char) :=
  fun m => if m = n then none else fs m

/-- Outcome of a filesystem action: the filesystem afterwards, plus the
exception it threw, if any (mutations completed before the throw persist). -/
abbrev FsOut := FsEnv × Option FsErr

/-- `fs.existsSync` (never throws; reports presence of the slot). -/
def existsSync (env : FsEnv) (n : Nat) : Bool :=
  (env.files n).isSome

/-- `fs.unlinkSync`. -/
def unlinkSync (env : FsEnv) (n : Nat) : FsOut :=
  if env.broken then (env, some FsErr.eio)
  else
    match env.files n with
    | none => (env, some FsErr.enoent)
    | some _ => ({ env with files := fsDel env.files n }, none)

/-- `fs.renameSync` (overwrites the destination, as POSIX rename does). -/
def renameSync (env : FsEnv) (src dst : Nat) : FsOut :=
  if env.broken then (env, some FsErr.eio)
  else
    match env.files src with
    | none => (env, some FsErr.enoent)
    | some c => ({ env with files := fsSet (fsDel env.files src) dst c }, none)

/-- `fs.appendFileSync` on the given slot (creates the file when absent). -/
def appendFileSync (env : FsEnv) (n : Nat) (content : List Char) : FsOut :=
  if env.broken then (env, some FsErr.eio)
  else
    ({ env with files := fsSet env.files n (((env.files n).getD []) ++ content) }, none)

/-- `fs.statSync(logFile).size`: the live file's size, or the exception. -/
def statSizeSync (env : FsEnv) : Option Nat × Option FsErr :=
  if env.broken then (none, some FsErr.eio)
  else
    match env.files 0 with
    | none => (none, some FsErr.enoent)
    | some c => (some c.length, none)

/-- Sequencing of filesystem actions: stop at the first thrown exception,
keeping the filesystem as the failed step left it. -/
def fsBind (r : FsOut) (f : FsEnv → FsOut) : FsOut :=
  match r with
  | (env, none) => f env
  | (env, some e) => (env, some e)

/-- The backup-shift loop of `rotate` in `src/writer.ts`:
`for (let i = cfg.maxBackups - 1; i >= 1; i--) { if exists .i, rename .i → .(i+1) }`.
The argument is the loop counter's current value; `0` is loop exit. -/
def shiftBackups : Nat → FsEnv → FsOut
  | 0, env => (env, none)
  | i + 1, env =>
    fsBind
      (if existsSync env (i + 1) then renameSync env (i + 1) (i + 2) else (env, none))
      (fun env1 => shiftBackups i env1)

/-- Writer configuration (`WriterConfig` in `src/writer.ts`).  `logDir` and
`filename` are resolved into the slot addressing of `FsEnv`; `prefixTag` is
the config's console-fallback prefix field. -/
structure WriterConfig where
  maxSize : Int
  maxBackups : Int
  prefixTag : List Char

/-- `rotate` from `src/writer.ts`: nothing to do when no live file exists;
`maxBackups <= 0` deletes the live file outright; otherwise delete the
oldest backup if it sits at the cap, shift the chain downward, and rename
the live file into backup slot 1. -/
def rotate (cfg : WriterConfig) (env : FsEnv) : FsOut :=
  if existsSync env 0 = false then (env, none)
  else if cfg.maxBackups ≤ 0 then unlinkSync env 0
  else
    fsBind
      (if existsSync env cfg.maxBackups.toNat then unlinkSync env cfg.maxBackups.toNat
       else (env, none))
      (fun env1 =>
        fsBind (shiftBackups (cfg.maxBackups.toNat - 1) env1)
          (fun env2 => renameSync env2 0 1))

/-- The filesystem path of `write` in `src/writer.ts` (the body of its
`try`): stat the live file (`ENOENT` means size 0, any other exception is
rethrown), rotate when `maxSize` is positive and the current size plus the
incoming line-with-newline would exceed it, then append the line with its
newline. -/
def writeFs (cfg : WriterConfig) (env : FsEnv) (line : List Char) : FsOut :=
  match statSizeSync env with
  | (_, some FsErr.eio) => (env, some FsErr.eio)
  | res =>
    let currentSize : Int := (res.1.getD 0 : Nat)
    let incomingSize : Int := ((line ++ ['\n']).length : Nat)
    fsBind
      (if 0 < cfg.maxSize ∧ currentSize + incomingSize > cfg.maxSize then rotate cfg env
       else (env, none))
      (fun env1 => appendFileSync env1 0 (line ++ ['\n']))

/-- A writer instance's state: the `useConsoleFallback` latch, the
filesystem, and the lines echoed through the console fallback so far. -/
structure WriterState where
  useConsoleFallback : Bool
  env : FsEnv
  console : List (List Char)

/-- `writeToConsole` from `src/writer.ts`:
`` console.log(`${cfg.prefix} ${line}`) ``. -/
def writeToConsole (cfg : WriterConfig) (st : WriterState) (line : List Char) :
    WriterState :=
  { st with console := st.console ++ [cfg.prefixTag ++ ' ' :: line] }

/-- `write` from `src/writer.ts`: in fallback mode echo to the console;
otherwise run the filesystem path, and on any exception latch
`useConsoleFallback` and echo the failed line — so `write` itself never
throws. -/
def write (cfg : WriterConfig) (st : WriterState) (line : List Char) : WriterState :=
  if st.useConsoleFallback then writeToConsole cfg st line
  else
    match writeFs cfg st.env line with
    | (env1, none) => { st with env := env1 }
    | (env1, some _) =>
      writeToConsole cfg { st with useConsoleFallback := true, env := env1 } line

/-- A sequence of `write` calls against one writer instance. -/
def writeAll (cfg : WriterConfig) (st : WriterState) (lines : List (List Char)) :
    WriterState :=
  lines.foldl (write cfg) st
/-! ## Helper lemmas about characters and strings -/

theorem dropWhile_eq_self_of_not {p : Char → Bool} {l : List Char}
    (h : ∀ c ∈ l, p c = false) : l.dropWhile p = l := by
  cases l with
  | nil => rfl
  | cons a t => simp [List.dropWhile_cons, h a (List.mem_cons_self a t)]

theorem jsTrim_eq_self {l : List Char} (h : ∀ c ∈ l, c.isWhitespace = false) :
    jsTrim l = l := by
  unfold jsTrim
  rw [dropWhile_eq_self_of_not h,
    dropWhile_eq_self_of_not (by intro c hc; exact h c (List.mem_reverse.mp hc)),
    List.reverse_reverse]

theorem map_id_of_mem {f : Char → Char} {l : List Char} (h : ∀ c ∈ l, f c = c) :
    l.map f = l := by
  induction l with
  | nil => rfl
  | cons a t ih =>
    simp only [List.map_cons, h a (List.mem_cons_self a t)]
    rw [ih (fun c hc => h c (List.mem_cons_of_mem a hc))]

theorem lowerHex_not_ws {c : Char} (h : isLowerHexDigit c = true) :
    c.isWhitespace = false := by
  have hm : c ∈ lowerHexChars := of_decide_eq_true h
  fin_cases hm <;> decide

theorem lowerHex_toLower {c : Char} (h : isLowerHexDigit c = true) :
    jsCharToLower c = c := by
  have hm : c ∈ lowerHexChars := of_decide_eq_true h
  fin_cases hm <;> decide

theorem hexGroup_append (g r : List Char) (n : Nat)
    (hg : g.length = n) (ha : g.all isLowerHexDigit = true) :
    hexGroup n (g ++ r) = some (g, r) := by
  unfold hexGroup
  rw [List.take_left' hg, List.drop_left' hg, if_pos ⟨hg, ha⟩]

theorem hexGroup_exact (g : List Char) (n : Nat)
    (hg : g.length = n) (ha : g.all isLowerHexDigit = true) :
    hexGroup n g = some (g, []) := by
  have := hexGroup_append g [] n hg ha
  simpa using this

theorem traceparentMatch_format {t s f : List Char}
    (ht : t.length = 32) (hta : t.all isLowerHexDigit = true)
    (hs : s.length = 16) (hsa : s.all isLowerHexDigit = true)
    (hf : f.length = 2) (hfa : f.all isLowerHexDigit = true) :
    traceparentMatch (formatTraceparent t s f) = some ⟨['0', '0'], t, s, f⟩ := by
  unfold formatTraceparent traceparentMatch
  have h00 : hexGroup 2 ('0' :: '0' :: '-' :: (t ++ '-' :: (s ++ '-' :: f)))
      = some (['0', '0'], '-' :: (t ++ '-' :: (s ++ '-' :: f))) := by
    have := hexGroup_append ['0', '0'] ('-' :: (t ++ '-' :: (s ++ '-' :: f))) 2
      (by decide) (by decide)
    simpa using this
  rw [h00]
  simp only [expectDash]
  rw [hexGroup_append t ('-' :: (s ++ '-' :: f)) 32 ht hta]
  simp only [expectDash]
  rw [hexGroup_append s ('-' :: f) 16 hs hsa]
  simp only [expectDash]
  rw [hexGroup_exact f 2 hf hfa]
  simp
theorem format_chars {t s f : List Char}
    (hta : t.all isLowerHexDigit = true)
    (hsa : s.all isLowerHexDigit = true)
    (hfa : f.all isLowerHexDigit = true) :
    ∀ c ∈ formatTraceparent t s f, c.isWhitespace = false ∧ jsCharToLower c = c := by
  intro c hc
  simp only [formatTraceparent, List.mem_cons, List.mem_append] at hc
  have hhex : isLowerHexDigit c = true → c.isWhitespace = false ∧ jsCharToLower c = c :=
    fun h => ⟨lowerHex_not_ws h, lowerHex_toLower h⟩
  rcases hc with rfl | rfl | rfl | hc
  · exact ⟨by decide, by decide⟩
  · exact ⟨by decide, by decide⟩
  · exact ⟨by decide, by decide⟩
  rcases hc with hc | hc
  · exact hhex (List.all_eq_true.mp hta c hc)
  rcases hc with rfl | hc
  · exact ⟨by decide, by decide⟩
  rcases hc with hc | hc
  · exact hhex (List.all_eq_true.mp hsa c hc)
  rcases hc with rfl | hc
  · exact ⟨by decide, by decide⟩
  · exact hhex (List.all_eq_true.mp hfa c hc)

/-- **C1.** For every well-formed triple — `traceId` of 32 lowercase hex
characters and not all-zero, `spanId` of 16 lowercase hex characters and
not all-zero, `flags` of 2 lowercase hex characters —
`parseTraceparent (formatTraceparent traceId spanId flags)` returns the
parsed context `{ version := "00", traceId, parentId := spanId,
traceFlags := flags }`. -/
theorem parse_format_roundtrip (t s f : List Char)
    (ht : t.length = 32) (hta : t.all isLowerHexDigit = true) (htz : t ≠ ALL_ZEROS_32)
    (hs : s.length = 16) (hsa : s.all isLowerHexDigit = true) (hsz : s ≠ ALL_ZEROS_16)
    (hf : f.length = 2) (hfa : f.all isLowerHexDigit = true) :
    parseTraceparent (some (formatTraceparent t s f)) =
      some ⟨['0', '0'], t, s, f⟩ := by
  have hchars := format_chars hta hsa hfa
  have hne : ¬(formatTraceparent t s f = []) := by simp [formatTraceparent]
  have htrim : jsTrim (formatTraceparent t s f) = formatTraceparent t s f :=
    jsTrim_eq_self (fun c hc => (hchars c hc).1)
  have hmap : (formatTraceparent t s f).map jsCharToLower = formatTraceparent t s f :=
    map_id_of_mem (fun c hc => (hchars c hc).2)
  have hmatch := traceparentMatch_format ht hta hs hsa hf hfa
  simp only [parseTraceparent, if_neg hne, htrim, hmap, hmatch]
  rw [if_neg]
  simp only [not_or]
  exact ⟨htz, hsz⟩

/-- Witness for C1 at the W3C example ids. -/
theorem parse_format_roundtrip_witness :
    parseTraceparent (some (formatTraceparent
        "4bf92f3577b86cd56163f2543210c4a0".toList
        "00f067aa0ba902b7".toList "01".toList)) =
      some ⟨['0', '0'], "4bf92f3577b86cd56163f2543210c4a0".toList,
        "00f067aa0ba902b7".toList, "01".toList⟩ :=
  parse_format_roundtrip _ _ _ (by decide) (by decide) (by decide)
    (by decide) (by decide) (by decide) (by decide) (by decide)

/-- **C3.** The code accepts the reserved version `"ff"`: parsing the header
`ff-4bf92f3577b86cd56163f2543210c4a0-00f067aa0ba902b7-01` succeeds with
version `"ff"` (and version `"00"` is accepted as well), although the
module's own documentation claims W3C-violating headers yield `null`, the
repository's test suite expects `null` for the reserved `ff` version, and
the W3C spec declares version `ff` invalid.  `parseTraceparent` has no
version check at all. -/
theorem parseTraceparent_accepts_reserved_ff :
    parseTraceparent
        (some "ff-4bf92f3577b86cd56163f2543210c4a0-00f067aa0ba902b7-01".toList) =
      some ⟨"ff".toList, "4bf92f3577b86cd56163f2543210c4a0".toList,
        "00f067aa0ba902b7".toList, "01".toList⟩ ∧
    parseTraceparent
        (some "00-4bf92f3577b86cd56163f2543210c4a0-00f067aa0ba902b7-01".toList) =
      some ⟨"00".toList, "4bf92f3577b86cd56163f2543210c4a0".toList,
        "00f067aa0ba902b7".toList, "01".toList⟩ := by
  constructor <;> decide

/-- **C2.** `startSpanFromTraceparent` continues a parsed header as the new
span's parent — `traceId` and `parentSpanId` are taken from the header, the
flags are the normalization of the header's flags, and the span id is the
freshly minted one, independent of the header — while an unparsable header
(including absent) yields a fresh trace root: minted trace id, minted span
id, no parent, flags `"01"`. -/
theorem startSpanFromTraceparent_spec (gen : IdGen) (header : Option (List Char)) :
    (∀ tp, parseTraceparent header = some tp →
      startSpanFromTraceparent gen header =
        { traceId := tp.traceId
          spanId := gen.freshSpanId
          parentSpanId := some tp.parentId
          traceFlags := normalizeTraceFlags (some tp.traceFlags) }) ∧
    (parseTraceparent header = none →
      startSpanFromTraceparent gen header =
        { traceId := gen.freshTraceId
          spanId := gen.freshSpanId
          parentSpanId := none
          traceFlags := ['0', '1'] }) := by
  constructor
  · intro tp hp
    simp [startSpanFromTraceparent, startSpan, hp]
  · intro hp
    simp [startSpanFromTraceparent, startSpan, hp, normalizeTraceFlags]

/-- Witness for C2: a parsed header becomes the parent; a garbage header
yields a fresh root. -/
theorem startSpanFromTraceparent_spec_witness :
    startSpanFromTraceparent ⟨"a1".toList, "b2".toList⟩
        (some "00-4bf92f3577b86cd56163f2543210c4a0-00f067aa0ba902b7-01".toList) =
      { traceId := "4bf92f3577b86cd56163f2543210c4a0".toList
        spanId := "b2".toList
        parentSpanId := some "00f067aa0ba902b7".toList
        traceFlags := normalizeTraceFlags (some "01".toList) } ∧
    startSpanFromTraceparent ⟨"a1".toList, "b2".toList⟩ (some "garbage".toList) =
      { traceId := "a1".toList
        spanId := "b2".toList
        parentSpanId := none
        traceFlags := ['0', '1'] } :=
  ⟨(startSpanFromTraceparent_spec ⟨"a1".toList, "b2".toList⟩ _).1
      ⟨"00".toList, "4bf92f3577b86cd56163f2543210c4a0".toList,
        "00f067aa0ba902b7".toList, "01".toList⟩ (by decide),
    (startSpanFromTraceparent_spec ⟨"a1".toList, "b2".toList⟩ _).2 (by decide)⟩

/-- **C10.** `toSafeErrorLabel` never returns the exception's message: a
non-`Error` input or an `Error` whose name trims to empty yields the
constant `"Error"`; otherwise the trimmed name truncated to 80 characters.
The result never depends on the message, and its length is at most 80. -/
theorem toSafeErrorLabel_spec (err : CaughtValue) :
    (err = CaughtValue.notError → toSafeErrorLabel err = "Error".toList) ∧
    (∀ name message, err = CaughtValue.error name message →
      (jsTrim name = [] → toSafeErrorLabel err = "Error".toList) ∧
      (jsTrim name ≠ [] → toSafeErrorLabel err = (jsTrim name).take 80) ∧
      (∀ message2, toSafeErrorLabel (CaughtValue.error name message2) =
        toSafeErrorLabel err)) ∧
    (toSafeErrorLabel err).length ≤ 80 := by
  refine ⟨fun h => by simp [h, toSafeErrorLabel, DEFAULT_ERROR_LABEL], ?_, ?_⟩
  · intro name message h
    subst h
    refine ⟨fun h0 => by simp [toSafeErrorLabel, h0, DEFAULT_ERROR_LABEL], ?_, ?_⟩
    · intro h0
      simp [toSafeErrorLabel, h0, MAX_ERROR_LABEL_LENGTH]
    · intro message2
      simp [toSafeErrorLabel]
  · cases err with
    | notError => simp [toSafeErrorLabel, DEFAULT_ERROR_LABEL]
    | error name message =>
      simp only [toSafeErrorLabel]
      by_cases h0 : jsTrim name = []
      · simp [h0, DEFAULT_ERROR_LABEL]
      · simp only [h0, if_false]
        calc ((jsTrim name).take MAX_ERROR_LABEL_LENGTH).length
            ≤ MAX_ERROR_LABEL_LENGTH := by
              simp [List.length_take_le MAX_ERROR_LABEL_LENGTH (jsTrim name)]
          _ ≤ 80 := by simp [MAX_ERROR_LABEL_LENGTH]

/-- Witness for C10: a long-named error is truncated to 80 characters; a
non-`Error` throw gets the constant label. -/
theorem toSafeErrorLabel_spec_witness :
    toSafeErrorLabel (CaughtValue.error (List.replicate 100 'A') "boom".toList) =
      (jsTrim (List.replicate 100 'A')).take 80 ∧
    toSafeErrorLabel CaughtValue.notError = "Error".toList :=
  ⟨(((toSafeErrorLabel_spec (CaughtValue.error (List.replicate 100 'A') "boom".toList)).2.1
      (List.replicate 100 'A') "boom".toList rfl).2.1 (by decide)),
    (toSafeErrorLabel_spec CaughtValue.notError).1 rfl⟩

/-- **C4.** The facade's `emit` never throws and never hands a line to the
writer unless the per-call `isEnabled()` result is `true` and serialization
succeeded: a `false` guard leaves the writer untouched, a serialization
failure (e.g. a circular event) is swallowed with nothing written, and on
success exactly the serialized line is handed over.  (`emit` is a total
function into the writer's line list: the `try`/`catch` makes every path
return normally.) -/
theorem emit_spec (enabled : Bool) (serialized : JsResult (List Char))
    (written : List (List Char)) :
    (enabled = false → emit enabled serialized written = written) ∧
    (serialized = JsResult.thrown → emit enabled serialized written = written) ∧
    (∀ line, enabled = true → serialized = JsResult.ok line →
      emit enabled serialized written = written ++ [line]) := by
  refine ⟨fun h => by simp [emit, emitBody, h], fun h => ?_, fun line h1 h2 => ?_⟩
  · cases enabled <;> simp [emit, emitBody, h]
  · simp [emit, emitBody, h1, h2]

/-- Witness for C4: a disabled call and a circular-serialization call both
leave the writer untouched; an enabled successful call hands over the line. -/
theorem emit_spec_witness :
    emit false (JsResult.ok ['a']) [] = [] ∧
    emit true JsResult.thrown [] = [] ∧
    emit true (JsResult.ok ['a']) [] = [['a']] :=
  ⟨(emit_spec false (JsResult.ok ['a']) []).1 rfl,
    (emit_spec true JsResult.thrown []).2.1 rfl,
    (emit_spec true (JsResult.ok ['a']) []).2.2 ['a'] rfl rfl⟩

/-- **C8.** `withSpan` is a stack-discipline context manager: the callback
runs against a state whose parent pointer is the newly minted span id
(`gen.freshSpanId`, which is what `startSpan` mints here), and whatever the
callback does — return normally or throw, mutate the state, nest further
`withSpan` calls (any such behaviour is some `run`) — the state after
`withSpan` carries the parent pointer exactly as it was before the call. -/
theorem withSpan_spec {α : Type} (gen : IdGen) (st : BrowserTraceState)
    (run : BrowserTraceState → JsResult α × BrowserTraceState) :
    (withSpan gen st run).2.parentSpanId = st.parentSpanId ∧
    withSpan gen st run =
      ((run { st with parentSpanId := gen.freshSpanId }).1,
        { (run { st with parentSpanId := gen.freshSpanId }).2 with
            parentSpanId := st.parentSpanId }) ∧
    (startSpan gen
      { traceId := some st.traceId
        parentSpanId := some st.parentSpanId
        traceFlags := some st.traceFlags }).spanId = gen.freshSpanId :=
  ⟨rfl, rfl, rfl⟩

theorem writeAll_fallback (cfg : WriterConfig) (st : WriterState)
    (h : st.useConsoleFallback = true) (lines : List (List Char)) :
    writeAll cfg st lines =
      { st with console := st.console ++ lines.map (fun l => cfg.prefixTag ++ ' ' :: l) } := by
  induction lines generalizing st with
  | nil => simp [writeAll]
  | cons l rest ih =>
    have hstep : write cfg st l = writeToConsole cfg st l := by
      simp [write, h]
    have : writeAll cfg st (l :: rest) = writeAll cfg (writeToConsole cfg st l) rest := by
      simp [writeAll, hstep]
    rw [this, ih (writeToConsole cfg st l) (by simp [writeToConsole, h])]
    simp [writeToConsole, h]

/-- **C5.** The fallback latch is one-way: when a filesystem-mode `write`
hits a filesystem exception, the failed line is echoed through the console
fallback with the configured prefix, `useConsoleFallback` is latched, and
from then on every `write` is a console echo with the prefix while the
filesystem is left completely untouched (the fallback branch of `write`
performs no filesystem operation).  `write` itself is a total function into
`WriterState` — no exception escapes it. -/
theorem writer_fallback_latch (cfg : WriterConfig) (st : WriterState) (line : List Char)
    (h0 : st.useConsoleFallback = false)
    (hfail : (writeFs cfg st.env line).2.isSome = true) :
    (write cfg st line).useConsoleFallback = true ∧
    (write cfg st line).console = st.console ++ [cfg.prefixTag ++ ' ' :: line] ∧
    (∀ lines,
      (writeAll cfg (write cfg st line) lines).useConsoleFallback = true ∧
      (writeAll cfg (write cfg st line) lines).env = (write cfg st line).env ∧
      (writeAll cfg (write cfg st line) lines).console =
        (write cfg st line).console ++
          lines.map (fun l => cfg.prefixTag ++ ' ' :: l)) := by
  obtain ⟨env1, err, hw⟩ : ∃ env1 err, writeFs cfg st.env line = (env1, some err) := by
    rcases hr : writeFs cfg st.env line with ⟨env1, err⟩
    cases err with
    | none => rw [hr] at hfail; simp at hfail
    | some e => exact ⟨env1, e, rfl⟩
  have hwrite : write cfg st line =
      writeToConsole cfg { st with useConsoleFallback := true, env := env1 } line := by
    simp [write, h0, hw]
  refine ⟨?_, ?_, ?_⟩
  · rw [hwrite]; simp [writeToConsole]
  · rw [hwrite]; simp [writeToConsole]
  · intro lines
    have hfb : (write cfg st line).useConsoleFallback = true := by
      rw [hwrite]; simp [writeToConsole]
    rw [writeAll_fallback cfg (write cfg st line) hfb lines]
    exact ⟨hfb, rfl, rfl⟩

/-- Witness for C5: a writer whose target path is unusable (every
filesystem call throws) latches on the first write and echoes both lines
with the prefix. -/
theorem writer_fallback_latch_witness :
    (writeAll ⟨100, 2, "[TEL]".toList⟩
        (write ⟨100, 2, "[TEL]".toList⟩ ⟨false, ⟨fun _ => none, true⟩, []⟩ ['a'])
        [['b']]).useConsoleFallback = true ∧
    (writeAll ⟨100, 2, "[TEL]".toList⟩
        (write ⟨100, 2, "[TEL]".toList⟩ ⟨false, ⟨fun _ => none, true⟩, []⟩ ['a'])
        [['b']]).console = ["[TEL] a".toList, "[TEL] b".toList] := by
  have h := writer_fallback_latch ⟨100, 2, "[TEL]".toList⟩
    ⟨false, ⟨fun _ => none, true⟩, []⟩ ['a'] rfl (by decide)
  refine ⟨(h.2.2 [['b']]).1, ?_⟩
  rw [(h.2.2 [['b']]).2.2, h.2.1]
  decide

theorem shiftBackups_spec (n : Nat) (env : FsEnv) (hb : env.broken = false)
    (htop : env.files (n + 1) = none) :
    (shiftBackups n env).2 = none ∧ (shiftBackups n env).1.broken = false ∧
    ∀ j, (shiftBackups n env).1.files j =
      if 2 ≤ j ∧ j ≤ n + 1 then env.files (j - 1)
      else if j = 1 ∧ 1 ≤ n then none
      else env.files j := by
  induction n generalizing env with
  | zero =>
    refine ⟨rfl, hb, ?_⟩
    intro j
    rw [if_neg (by omega), if_neg (by omega)]
    rfl
  | succ n ih =>
    by_cases hex : existsSync env (n + 1) = true
    · obtain ⟨c, hc⟩ : ∃ c, env.files (n + 1) = some c := by
        simpa [existsSync, Option.isSome_iff_exists] using hex
      have hstep : shiftBackups (n + 1) env =
          shiftBackups n { env with files := fsSet (fsDel env.files (n + 1)) (n + 2) c } := by
        simp [shiftBackups, if_pos hex, renameSync, hb, hc, fsBind]
      obtain ⟨herr, hbrk, hall⟩ :=
        ih { env with files := fsSet (fsDel env.files (n + 1)) (n + 2) c } hb
          (by simp [fsSet, fsDel, (by omega : ¬(n + 1 = n + 2))])
      rw [hstep]
      refine ⟨herr, hbrk, ?_⟩
      intro j
      rw [hall j]
      by_cases hA1 : 2 ≤ j ∧ j ≤ n + 1
      · rw [if_pos hA1, if_pos (show 2 ≤ j ∧ j ≤ n + 1 + 1 by omega)]
        show (if j - 1 = n + 2 then some c
              else if j - 1 = n + 1 then none
              else env.files (j - 1)) = env.files (j - 1)
        rw [if_neg (by omega), if_neg (by omega)]
      · by_cases hj2 : j = n + 2
        · subst hj2
          rw [if_neg hA1, if_neg (by omega : ¬(n + 2 = 1 ∧ 1 ≤ n)),
            if_pos (show 2 ≤ n + 2 ∧ n + 2 ≤ n + 1 + 1 by omega)]
          simp [fsSet, fsDel, hc, (by omega : n + 2 - 1 = n + 1)]
        · by_cases hj1 : j = 1
          · subst hj1
            rw [if_neg hA1, if_neg (by omega : ¬(2 ≤ 1 ∧ 1 ≤ n + 1 + 1)),
              if_pos (show (1 : Nat) = 1 ∧ 1 ≤ n + 1 by omega)]
            by_cases hn : 1 ≤ n
            · rw [if_pos ⟨rfl, hn⟩]
            · rw [if_neg (by omega : ¬((1 : Nat) = 1 ∧ 1 ≤ n))]
              have hn0 : n = 0 := by omega
              subst hn0
              simp [fsSet, fsDel]
          · rw [if_neg hA1, if_neg (by omega : ¬(j = 1 ∧ 1 ≤ n)),
              if_neg (by omega : ¬(2 ≤ j ∧ j ≤ n + 1 + 1)),
              if_neg (by omega : ¬(j = 1 ∧ 1 ≤ n + 1))]
            show (if j = n + 2 then some c
                  else if j = n + 1 then none
                  else env.files j) = env.files j
            rw [if_neg hj2, if_neg (by omega)]
    · have hexNone : env.files (n + 1) = none := by
        rcases h' : env.files (n + 1) with _ | c
        · rfl
        · exact absurd (by simp [existsSync, h']) hex
      have hstep : shiftBackups (n + 1) env = shiftBackups n env := by
        simp [shiftBackups, if_neg hex, fsBind]
      obtain ⟨herr, hbrk, hall⟩ := ih env hb hexNone
      rw [hstep]
      refine ⟨herr, hbrk, ?_⟩
      intro j
      rw [hall j]
      by_cases hA1 : 2 ≤ j ∧ j ≤ n + 1
      · rw [if_pos hA1, if_pos (show 2 ≤ j ∧ j ≤ n + 1 + 1 by omega)]
      · by_cases hj2 : j = n + 2
        · subst hj2
          rw [if_neg hA1, if_neg (by omega : ¬(n + 2 = 1 ∧ 1 ≤ n)),
            if_pos (show 2 ≤ n + 2 ∧ n + 2 ≤ n + 1 + 1 by omega)]
          have h22 : env.files (n + 2) = none := by
            have harith : n + 2 = n + 1 + 1 := by omega
            rw [harith]; exact htop
          have h21 : env.files (n + 2 - 1) = none := by
            have harith : n + 2 - 1 = n + 1 := by omega
            rw [harith]; exact hexNone
          rw [h22, h21]
        · by_cases hj1 : j = 1
          · subst hj1
            rw [if_neg hA1, if_neg (by omega : ¬(2 ≤ 1 ∧ 1 ≤ n + 1 + 1)),
              if_pos (show (1 : Nat) = 1 ∧ 1 ≤ n + 1 by omega)]
            by_cases hn : 1 ≤ n
            · rw [if_pos ⟨rfl, hn⟩]
            · rw [if_neg (by omega : ¬((1 : Nat) = 1 ∧ 1 ≤ n))]
              have hn0 : n = 0 := by omega
              subst hn0
              exact hexNone
          · rw [if_neg hA1, if_neg (by omega : ¬(j = 1 ∧ 1 ≤ n)),
              if_neg (by omega : ¬(2 ≤ j ∧ j ≤ n + 1 + 1)),
              if_neg (by omega : ¬(j = 1 ∧ 1 ≤ n + 1))]

theorem rotate_lemma (cfg : WriterConfig) (env : FsEnv) (hb : env.broken = false) :
    (rotate cfg env).2 = none ∧ (rotate cfg env).1.broken = false ∧
    (rotate cfg env).1.files 0 = none ∧
    (env.files 0 = none → rotate cfg env = (env, none)) ∧
    (env.files 0 ≠ none → cfg.maxBackups ≤ 0 →
      rotate cfg env = ({ env with files := fsDel env.files 0 }, none)) ∧
    (env.files 0 ≠ none → 0 < cfg.maxBackups →
      ∀ j, (rotate cfg env).1.files j =
        if j = 0 then none
        else if j = 1 then env.files 0
        else if j ≤ cfg.maxBackups.toNat then env.files (j - 1)
        else env.files j) := by
  by_cases h0 : existsSync env 0 = true
  · obtain ⟨c0, hc0⟩ : ∃ c0, env.files 0 = some c0 := by
      simpa [existsSync, Option.isSome_iff_exists] using h0
    have hnf : ¬(existsSync env 0 = false) := by simp [h0]
    by_cases hmb : cfg.maxBackups ≤ 0
    · have hrot : rotate cfg env = ({ env with files := fsDel env.files 0 }, none) := by
        simp [rotate, if_neg hnf, if_pos hmb, unlinkSync, hb, hc0]
      rw [hrot]
      refine ⟨rfl, hb, ?_, ?_, fun _ _ => rfl, fun _ hpos => absurd hpos (by omega)⟩
      · show (if 0 = 0 then none else env.files 0) = none
        rw [if_pos rfl]
      · intro h
        rw [hc0] at h
        exact Option.noConfusion h
    · have hpos : 0 < cfg.maxBackups := by omega
      have hB1 : 1 ≤ cfg.maxBackups.toNat := by omega
      have harith : cfg.maxBackups.toNat - 1 + 1 = cfg.maxBackups.toNat := by omega
      -- the oldest-backup deletion step
      have hstep1 : ∃ env1 : FsEnv,
          (if existsSync env cfg.maxBackups.toNat then unlinkSync env cfg.maxBackups.toNat
           else (env, none)) = (env1, none) ∧
          env1.broken = false ∧
          ∀ j, env1.files j = if j = cfg.maxBackups.toNat then none else env.files j := by
        by_cases hexB : existsSync env cfg.maxBackups.toNat = true
        · obtain ⟨cB, hcB⟩ : ∃ cB, env.files cfg.maxBackups.toNat = some cB := by
            simpa [existsSync, Option.isSome_iff_exists] using hexB
          refine ⟨{ env with files := fsDel env.files cfg.maxBackups.toNat }, ?_, hb, ?_⟩
          · simp [if_pos hexB, unlinkSync, hb, hcB]
          · intro j
            rfl
        · have hcB : env.files cfg.maxBackups.toNat = none := by
            rcases h' : env.files cfg.maxBackups.toNat with _ | cB
            · rfl
            · exact absurd (by simp [existsSync, h']) hexB
          refine ⟨env, by simp [if_neg hexB], hb, ?_⟩
          intro j
          by_cases hj : j = cfg.maxBackups.toNat
          · rw [if_pos hj, hj, hcB]
          · rw [if_neg hj]
      obtain ⟨env1, hstep1eq, hbrk1, henv1⟩ := hstep1
      have htop1 : env1.files (cfg.maxBackups.toNat - 1 + 1) = none := by
        rw [harith, henv1 cfg.maxBackups.toNat, if_pos rfl]
      obtain ⟨herr2, hbrk2, hall2⟩ :=
        shiftBackups_spec (cfg.maxBackups.toNat - 1) env1 hbrk1 htop1
      have henv20 : (shiftBackups (cfg.maxBackups.toNat - 1) env1).1.files 0 = some c0 := by
        rw [hall2 0, if_neg (by omega), if_neg (by omega), henv1 0, if_neg (by omega), hc0]
      have hrot : rotate cfg env =
          ({ (shiftBackups (cfg.maxBackups.toNat - 1) env1).1 with
              files := fsSet
                (fsDel (shiftBackups (cfg.maxBackups.toNat - 1) env1).1.files 0) 1 c0 },
            none) := by
        rw [rotate, if_neg hnf, if_neg (by omega : ¬cfg.maxBackups ≤ 0)]
        rw [hstep1eq]
        show fsBind (shiftBackups (cfg.maxBackups.toNat - 1) env1)
          (fun env2 => renameSync env2 0 1) = _
        rcases hsb : shiftBackups (cfg.maxBackups.toNat - 1) env1 with ⟨env2, err2⟩
        rw [hsb] at herr2 hbrk2 henv20
        simp only at herr2
        subst herr2
        show renameSync env2 0 1 = _
        simp only at hbrk2 henv20
        simp [renameSync, hbrk2, henv20]
      rw [hrot]
      refine ⟨rfl, hbrk2, ?_, ?_, ?_, ?_⟩
      · show (if 0 = 1 then some c0
              else if 0 = 0 then none
              else (shiftBackups (cfg.maxBackups.toNat - 1) env1).1.files 0) = none
        rw [if_neg (by omega), if_pos rfl]
      · intro h
        rw [hc0] at h
        exact Option.noConfusion h
      · intro _ hneg
        exact absurd hpos (by omega)
      · intro _ _ j
        show (if j = 1 then some c0
              else if j = 0 then none
              else (shiftBackups (cfg.maxBackups.toNat - 1) env1).1.files j) = _
        by_cases hj0 : j = 0
        · subst hj0
          rw [if_neg (by omega), if_pos rfl, if_pos rfl]
        · by_cases hj1 : j = 1
          · subst hj1
            rw [if_pos rfl, if_neg (by omega), if_pos rfl, hc0]
          · rw [if_neg hj1, if_neg hj0, if_neg hj0, if_neg hj1, hall2 j]
            by_cases hjB : j ≤ cfg.maxBackups.toNat
            · rw [if_pos (by omega : 2 ≤ j ∧ j ≤ cfg.maxBackups.toNat - 1 + 1),
                if_pos hjB, henv1 (j - 1), if_neg (by omega)]
            · rw [if_neg (by omega : ¬(2 ≤ j ∧ j ≤ cfg.maxBackups.toNat - 1 + 1)),
                if_neg (by omega : ¬(j = 1 ∧ 1 ≤ cfg.maxBackups.toNat - 1)),
                if_neg hjB, henv1 j, if_neg (by omega)]
  · have h0n : env.files 0 = none := by
      rcases h' : env.files 0 with _ | c
      · rfl
      · exact absurd (by simp [existsSync, h']) h0
    have hf : existsSync env 0 = false := by
      cases hx : existsSync env 0
      · rfl
      · exact absurd hx h0
    have hrot : rotate cfg env = (env, none) := by
      rw [rotate, if_pos hf]
    rw [hrot]
    exact ⟨rfl, hb, h0n, fun _ => rfl, fun h _ => absurd h0n h, fun h _ => absurd h0n h⟩

theorem writeFs_eq (cfg : WriterConfig) (env : FsEnv) (line : List Char)
    (hb : env.broken = false) :
    writeFs cfg env line =
      fsBind
        (if 0 < cfg.maxSize ∧
            (((env.files 0).getD []).length : Int) + ((line ++ ['\n']).length : Int) >
              cfg.maxSize
         then rotate cfg env else (env, none))
        (fun env1 => appendFileSync env1 0 (line ++ ['\n'])) := by
  rcases hf0 : env.files 0 with _ | c0
  · have hstat : statSizeSync env = (none, some FsErr.enoent) := by
      simp [statSizeSync, hb, hf0]
    simp [writeFs, hstat, hf0]
  · have hstat : statSizeSync env = (some c0.length, none) := by
      simp [statSizeSync, hb, hf0]
    simp [writeFs, hstat, hf0]

/-- **C7.** `rotate`: with no live file nothing happens; with `maxBackups ≤ 0`
the live file is deleted outright (the filesystem afterwards is exactly the
old one minus the live file — in particular no `.1` backup is created);
otherwise the chain shifts downward — the backup at the cap index is
deleted, each backup `.i` moves to `.(i+1)`, and the live file becomes
`.1`: afterwards slot `0` is empty, slot `1` holds the old live file, slots
`2 .. maxBackups` hold the old next-lower backup, and slots beyond the cap
are untouched.  No step throws. -/
theorem rotate_spec (cfg : WriterConfig) (env : FsEnv) (hb : env.broken = false) :
    (rotate cfg env).2 = none ∧
    (env.files 0 = none → rotate cfg env = (env, none)) ∧
    (env.files 0 ≠ none → cfg.maxBackups ≤ 0 →
      rotate cfg env = ({ env with files := fsDel env.files 0 }, none)) ∧
    (env.files 0 ≠ none → 0 < cfg.maxBackups →
      ∀ j, (rotate cfg env).1.files j =
        if j = 0 then none
        else if j = 1 then env.files 0
        else if j ≤ cfg.maxBackups.toNat then env.files (j - 1)
        else env.files j) := by
  obtain ⟨h1, _, _, h4, h5, h6⟩ := rotate_lemma cfg env hb
  exact ⟨h1, h4, h5, h6⟩

/-- Witness for C7: rotating a writer with `maxBackups = 2`, a live file and
backups `.1`, `.2` moves live → `.1`, `.1` → `.2`, deletes the old `.2`, and
empties the live slot; with `maxBackups = 0` the live file is deleted and no
`.1` appears. -/
theorem rotate_spec_witness :
    (rotate ⟨100, 2, "[TEL]".toList⟩
        (⟨fun n => if n = 0 then some "live".toList else if n = 1 then some "b1".toList
          else if n = 2 then some "b2".toList else none, false⟩ : FsEnv)).1.files 0 = none ∧
    (rotate ⟨100, 2, "[TEL]".toList⟩
        (⟨fun n => if n = 0 then some "live".toList else if n = 1 then some "b1".toList
          else if n = 2 then some "b2".toList else none, false⟩ : FsEnv)).1.files 1 =
      some "live".toList ∧
    (rotate ⟨100, 2, "[TEL]".toList⟩
        (⟨fun n => if n = 0 then some "live".toList else if n = 1 then some "b1".toList
          else if n = 2 then some "b2".toList else none, false⟩ : FsEnv)).1.files 2 =
      some "b1".toList ∧
    (rotate ⟨100, 0, "[TEL]".toList⟩
        (⟨fun n => if n = 0 then some "live".toList else none, false⟩ : FsEnv)).1.files 0 =
      none ∧
    (rotate ⟨100, 0, "[TEL]".toList⟩
        (⟨fun n => if n = 0 then some "live".toList else none, false⟩ : FsEnv)).1.files 1 =
      none := by
  have h := (rotate_spec ⟨100, 2, "[TEL]".toList⟩
    (⟨fun n => if n = 0 then some "live".toList else if n = 1 then some "b1".toList
      else if n = 2 then some "b2".toList else none, false⟩ : FsEnv) rfl).2.2.2
    (by decide) (by decide)
  have h0 := (rotate_spec ⟨100, 0, "[TEL]".toList⟩
    (⟨fun n => if n = 0 then some "live".toList else none, false⟩ : FsEnv) rfl).2.2.1
    (by decide) (by decide)
  refine ⟨?_, ?_, ?_, ?_, ?_⟩
  · rw [h 0]; decide
  · rw [h 1]; decide
  · rw [h 2]; decide
  · rw [h0]; decide
  · rw [h0]; decide

/-- **C6.** The filesystem write path: with `maxSize ≤ 0` rotation never
happens — the line (with its newline) is appended to the live file, backups
untouched, however large the file grows; with `maxSize > 0` rotation
happens exactly when the existing live file's size plus the incoming
line-with-newline's byte size exceeds `maxSize`, and then the live file
afterwards holds exactly the new line — an oversized single line is still
appended in full, never rejected or split. -/
theorem writeFs_rotation_policy (cfg : WriterConfig) (env : FsEnv) (line : List Char)
    (hb : env.broken = false) :
    (cfg.maxSize ≤ 0 →
      writeFs cfg env line =
        ({ env with files := fsSet env.files 0 (((env.files 0).getD []) ++ (line ++ ['\n'])) }, none)) ∧
    (0 < cfg.maxSize →
      ((((env.files 0).getD []).length : Int) + ((line ++ ['\n']).length : Int) ≤
          cfg.maxSize →
        writeFs cfg env line =
          ({ env with files := fsSet env.files 0 (((env.files 0).getD []) ++ (line ++ ['\n'])) }, none)) ∧
      ((((env.files 0).getD []).length : Int) + ((line ++ ['\n']).length : Int) >
          cfg.maxSize →
        writeFs cfg env line =
          ({ (rotate cfg env).1 with files := fsSet (rotate cfg env).1.files 0 (line ++ ['\n']) }, none))) := by
  obtain ⟨hrerr, hrbrk, hrf0, _, _, _⟩ := rotate_lemma cfg env hb
  have heq := writeFs_eq cfg env line hb
  refine ⟨?_, fun hms => ⟨?_, ?_⟩⟩
  · intro hms
    rw [heq, if_neg (by omega :
      ¬(0 < cfg.maxSize ∧
        (((env.files 0).getD []).length : Int) + ((line ++ ['\n']).length : Int) >
          cfg.maxSize))]
    simp [fsBind, appendFileSync, hb]
  · intro hle
    rw [heq, if_neg (by omega :
      ¬(0 < cfg.maxSize ∧
        (((env.files 0).getD []).length : Int) + ((line ++ ['\n']).length : Int) >
          cfg.maxSize))]
    simp [fsBind, appendFileSync, hb]
  · intro hgt
    rw [heq, if_pos ⟨hms, hgt⟩]
    rcases hr : rotate cfg env with ⟨envR, errR⟩
    rw [hr] at hrerr hrbrk hrf0
    simp only at hrerr
    subst hrerr
    show appendFileSync envR 0 (line ++ ['\n']) = _
    simp only at hrbrk hrf0
    simp [appendFileSync, hrbrk, hrf0]

/-- Witness for C6: a 10-byte cap with an 8-byte live file rotates on a
4-byte incoming line, leaving exactly the new line in the live file and the
old content in `.1`; a zero cap never rotates. -/
theorem writeFs_rotation_policy_witness :
    (writeFs ⟨10, 2, "[TEL]".toList⟩
        (⟨fun n => if n = 0 then some "12345678".toList else none, false⟩ : FsEnv)
        "abc".toList).1.files 0 = some "abc\n".toList ∧
    (writeFs ⟨10, 2, "[TEL]".toList⟩
        (⟨fun n => if n = 0 then some "12345678".toList else none, false⟩ : FsEnv)
        "abc".toList).1.files 1 = some "12345678".toList ∧
    (writeFs ⟨0, 2, "[TEL]".toList⟩
        (⟨fun n => if n = 0 then some "12345678".toList else none, false⟩ : FsEnv)
        "abc".toList).1.files 0 = some "12345678abc\n".toList := by
  have hrot := ((writeFs_rotation_policy ⟨10, 2, "[TEL]".toList⟩
    (⟨fun n => if n = 0 then some "12345678".toList else none, false⟩ : FsEnv)
    "abc".toList rfl).2 (by decide)).2 (by decide)
  have hnorot := (writeFs_rotation_policy ⟨0, 2, "[TEL]".toList⟩
    (⟨fun n => if n = 0 then some "12345678".toList else none, false⟩ : FsEnv)
    "abc".toList rfl).1 (by decide)
  refine ⟨?_, ?_, ?_⟩
  · rw [hrot]; decide
  · rw [hrot]; decide
  · rw [hnorot]; decide

theorem foldPatterns_found (s n : List Char) (ps : List EntityPattern)
    (acc : List (List Char × List Char) × Bool) :
    (ps.foldl (stepPattern s n) acc).2 = true ↔
      (acc.2 = true ∨ ∃ p ∈ ps, s = p.segment ∧ n ≠ [] ∧ UUID_RE n = true) := by
  induction ps generalizing acc with
  | nil => simp
  | cons q ps ih =>
    simp only [List.foldl_cons]
    rw [ih]
    unfold stepPattern
    by_cases hq : s = q.segment ∧ n ≠ [] ∧ UUID_RE n = true
    · rw [if_pos hq]
      constructor
      · intro _
        exact Or.inr ⟨q, List.mem_cons_self q ps, hq⟩
      · intro _
        exact Or.inl rfl
    · rw [if_neg hq]
      constructor
      · rintro (h | ⟨p, hp, hh⟩)
        · exact Or.inl h
        · exact Or.inr ⟨p, List.mem_cons_of_mem q hp, hh⟩
      · rintro (h | ⟨p, hp, hh⟩)
        · exact Or.inl h
        · rcases List.mem_cons.mp hp with rfl | hp'
          · exact absurd hh hq
          · exact Or.inr ⟨p, hp', hh⟩

theorem foldPairs_found (ps : List EntityPattern)
    (pairs : List (List Char × List Char)) (acc : List (List Char × List Char) × Bool) :
    (pairs.foldl (stepSegmentPair ps) acc).2 = true ↔
      (acc.2 = true ∨ ∃ sn ∈ pairs, ∃ p ∈ ps,
        sn.1 = p.segment ∧ sn.2 ≠ [] ∧ UUID_RE sn.2 = true) := by
  induction pairs generalizing acc with
  | nil => simp
  | cons sn pairs ih =>
    simp only [List.foldl_cons]
    rw [ih]
    unfold stepSegmentPair
    rw [foldPatterns_found]
    constructor
    · rintro ((h | ⟨p, hp, hh⟩) | ⟨sn', hsn', hrest⟩)
      · exact Or.inl h
      · exact Or.inr ⟨sn, List.mem_cons_self sn pairs, p, hp, hh⟩
      · exact Or.inr ⟨sn', List.mem_cons_of_mem sn hsn', hrest⟩
    · rintro (h | ⟨sn', hsn', hrest⟩)
      · exact Or.inl (Or.inl h)
      · rcases List.mem_cons.mp hsn' with rfl | hsn''
        · exact Or.inl (Or.inr hrest)
        · exact Or.inr ⟨sn', hsn'', hrest⟩

theorem recSet_ne_nil (m : List (List Char × List Char)) (k v : List Char) :
    recSet m k v ≠ [] := by
  cases m with
  | nil => simp [recSet]
  | cons a rest =>
    rcases a with ⟨k', v'⟩
    by_cases h : k' = k <;> simp [recSet, h]

theorem foldPatterns_nonempty (s n : List Char) (ps : List EntityPattern)
    (acc : List (List Char × List Char) × Bool)
    (hinv : acc.2 = true → acc.1 ≠ []) :
    (ps.foldl (stepPattern s n) acc).2 = true → (ps.foldl (stepPattern s n) acc).1 ≠ [] := by
  induction ps generalizing acc with
  | nil => exact hinv
  | cons q ps ih =>
    simp only [List.foldl_cons]
    apply ih
    unfold stepPattern
    by_cases hq : s = q.segment ∧ n ≠ [] ∧ UUID_RE n = true
    · rw [if_pos hq]
      intro _
      exact recSet_ne_nil acc.1 q.key n
    · rw [if_neg hq]
      exact hinv

theorem foldPairs_nonempty (ps : List EntityPattern)
    (pairs : List (List Char × List Char)) (acc : List (List Char × List Char) × Bool)
    (hinv : acc.2 = true → acc.1 ≠ []) :
    (pairs.foldl (stepSegmentPair ps) acc).2 = true →
      (pairs.foldl (stepSegmentPair ps) acc).1 ≠ [] := by
  induction pairs generalizing acc with
  | nil => exact hinv
  | cons sn pairs ih =>
    simp only [List.foldl_cons]
    apply ih
    unfold stepSegmentPair
    exact foldPatterns_nonempty sn.1 sn.2 ps acc hinv

theorem recSet_mem_fst_self (m : List (List Char × List Char)) (k v : List Char) :
    k ∈ (recSet m k v).map Prod.fst := by
  induction m with
  | nil => simp [recSet]
  | cons a rest ih =>
    rcases a with ⟨k', v'⟩
    by_cases h : k' = k
    · simp [recSet, h]
    · simp only [recSet, if_neg h, List.map_cons, List.mem_cons]
      exact Or.inr ih

theorem recSet_mem_fst_mono (m : List (List Char × List Char)) (k v k0 : List Char)
    (h : k0 ∈ m.map Prod.fst) : k0 ∈ (recSet m k v).map Prod.fst := by
  induction m with
  | nil => simp at h
  | cons a rest ih =>
    rcases a with ⟨k', v'⟩
    by_cases hk : k' = k
    · simpa [recSet, hk] using h
    · simp only [recSet, if_neg hk, List.map_cons, List.mem_cons] at h ⊢
      rcases h with h | h
      · exact Or.inl h
      · exact Or.inr (ih h)

theorem stepPattern_mem_mono (s n : List Char) (acc : List (List Char × List Char) × Bool)
    (p : EntityPattern) (k0 : List Char) (h : k0 ∈ acc.1.map Prod.fst) :
    k0 ∈ (stepPattern s n acc p).1.map Prod.fst := by
  unfold stepPattern
  by_cases hq : s = p.segment ∧ n ≠ [] ∧ UUID_RE n = true
  · rw [if_pos hq]
    exact recSet_mem_fst_mono acc.1 p.key n k0 h
  · rw [if_neg hq]
    exact h

theorem foldPatterns_mem_mono (s n : List Char) (ps : List EntityPattern)
    (acc : List (List Char × List Char) × Bool) (k0 : List Char)
    (h : k0 ∈ acc.1.map Prod.fst) :
    k0 ∈ (ps.foldl (stepPattern s n) acc).1.map Prod.fst := by
  induction ps generalizing acc with
  | nil => exact h
  | cons q ps ih =>
    simp only [List.foldl_cons]
    exact ih _ (stepPattern_mem_mono s n acc q k0 h)

theorem foldPairs_mem_mono (ps : List EntityPattern)
    (pairs : List (List Char × List Char)) (acc : List (List Char × List Char) × Bool)
    (k0 : List Char) (h : k0 ∈ acc.1.map Prod.fst) :
    k0 ∈ (pairs.foldl (stepSegmentPair ps) acc).1.map Prod.fst := by
  induction pairs generalizing acc with
  | nil => exact h
  | cons sn pairs ih =>
    simp only [List.foldl_cons]
    exact ih _ (foldPatterns_mem_mono sn.1 sn.2 ps acc k0 h)

theorem foldPatterns_mem_insert (s n : List Char) (ps : List EntityPattern)
    (acc : List (List Char × List Char) × Bool) (p : EntityPattern) (hp : p ∈ ps)
    (hh : s = p.segment ∧ n ≠ [] ∧ UUID_RE n = true) :
    p.key ∈ (ps.foldl (stepPattern s n) acc).1.map Prod.fst := by
  induction ps generalizing acc with
  | nil => simp at hp
  | cons q ps ih =>
    simp only [List.foldl_cons]
    rcases List.mem_cons.mp hp with rfl | hp'
    · apply foldPatterns_mem_mono
      unfold stepPattern
      rw [if_pos hh]
      exact recSet_mem_fst_self acc.1 p.key n
    · exact ih _ hp'

theorem foldPairs_mem_insert (ps : List EntityPattern)
    (pairs : List (List Char × List Char)) (acc : List (List Char × List Char) × Bool)
    (sn : List Char × List Char) (p : EntityPattern) (hsn : sn ∈ pairs) (hp : p ∈ ps)
    (hh : sn.1 = p.segment ∧ sn.2 ≠ [] ∧ UUID_RE sn.2 = true) :
    p.key ∈ (pairs.foldl (stepSegmentPair ps) acc).1.map Prod.fst := by
  induction pairs generalizing acc with
  | nil => simp at hsn
  | cons sn' pairs ih =>
    simp only [List.foldl_cons]
    rcases List.mem_cons.mp hsn with rfl | hsn'
    · apply foldPairs_mem_mono
      unfold stepSegmentPair
      exact foldPatterns_mem_insert sn.1 sn.2 ps acc p hp hh
    · exact ih _ hsn'

theorem recSet_mem (m : List (List Char × List Char)) (k v : List Char)
    (kv : List Char × List Char) (h : kv ∈ recSet m k v) : kv ∈ m ∨ kv = (k, v) := by
  induction m with
  | nil => simpa [recSet] using h
  | cons a rest ih =>
    rcases a with ⟨k', v'⟩
    by_cases hk : k' = k
    · simp only [recSet, if_pos hk, List.mem_cons] at h ⊢
      rcases h with h | h
      · subst hk
        exact Or.inr h
      · exact Or.inl (Or.inr h)
    · simp only [recSet, if_neg hk, List.mem_cons] at h ⊢
      rcases h with h | h
      · exact Or.inl (Or.inl h)
      · rcases ih h with h' | h'
        · exact Or.inl (Or.inr h')
        · exact Or.inr h'

theorem foldPatterns_origin (s n : List Char) (ps : List EntityPattern)
    (acc : List (List Char × List Char) × Bool) (P : List Char × List Char → Prop)
    (hacc : ∀ kv ∈ acc.1, P kv)
    (hnew : ∀ p ∈ ps, (s = p.segment ∧ n ≠ [] ∧ UUID_RE n = true) → P (p.key, n)) :
    ∀ kv ∈ (ps.foldl (stepPattern s n) acc).1, P kv := by
  induction ps generalizing acc with
  | nil => exact hacc
  | cons q ps ih =>
    simp only [List.foldl_cons]
    apply ih
    · unfold stepPattern
      by_cases hq : s = q.segment ∧ n ≠ [] ∧ UUID_RE n = true
      · rw [if_pos hq]
        intro kv hkv
        rcases recSet_mem acc.1 q.key n kv hkv with h | h
        · exact hacc kv h
        · rw [h]
          exact hnew q (List.mem_cons_self q ps) hq
      · rw [if_neg hq]
        exact hacc
    · intro p hp hh
      exact hnew p (List.mem_cons_of_mem q hp) hh

theorem foldPairs_origin (ps : List EntityPattern)
    (pairs : List (List Char × List Char)) (acc : List (List Char × List Char) × Bool)
    (P : List Char × List Char → Prop)
    (hacc : ∀ kv ∈ acc.1, P kv)
    (hnew : ∀ sn ∈ pairs, ∀ p ∈ ps,
      (sn.1 = p.segment ∧ sn.2 ≠ [] ∧ UUID_RE sn.2 = true) → P (p.key, sn.2)) :
    ∀ kv ∈ (pairs.foldl (stepSegmentPair ps) acc).1, P kv := by
  induction pairs generalizing acc with
  | nil => exact hacc
  | cons sn pairs ih =>
    simp only [List.foldl_cons]
    apply ih
    · unfold stepSegmentPair
      apply foldPatterns_origin sn.1 sn.2 ps acc P hacc
      intro p hp hh
      exact hnew sn (List.mem_cons_self sn pairs) p hp hh
    · intro sn' hsn' p hp hh
      exact hnew sn' (List.mem_cons_of_mem sn hsn') p hp hh

theorem foldKeys_found (d : List (List Char × JsVal)) (keys : List (List Char))
    (acc : List (List Char × List Char) × Bool) :
    (keys.foldl (stepEventKey d) acc).2 = true ↔
      (acc.2 = true ∨ ∃ k ∈ keys, ∃ v, jsGet d k = some (JsVal.str v)) := by
  induction keys generalizing acc with
  | nil => simp
  | cons k keys ih =>
    simp only [List.foldl_cons]
    rw [ih]
    rcases hk : jsGet d k with _ | val
    · rw [show stepEventKey d acc k = acc by simp [stepEventKey, hk]]
      constructor
      · rintro (h | ⟨k', hk', hv⟩)
        · exact Or.inl h
        · exact Or.inr ⟨k', List.mem_cons_of_mem k hk', hv⟩
      · rintro (h | ⟨k', hk', v, hv⟩)
        · exact Or.inl h
        · rcases List.mem_cons.mp hk' with rfl | hk''
          · rw [hk] at hv
            exact Option.noConfusion hv
          · exact Or.inr ⟨k', hk'', v, hv⟩
    · rcases val with v | _
      · rw [show stepEventKey d acc k = (recSet acc.1 k v, true) by simp [stepEventKey, hk]]
        constructor
        · intro _
          exact Or.inr ⟨k, List.mem_cons_self k keys, v, hk⟩
        · intro _
          exact Or.inl rfl
      · rw [show stepEventKey d acc k = acc by simp [stepEventKey, hk]]
        constructor
        · rintro (h | ⟨k', hk', hv⟩)
          · exact Or.inl h
          · exact Or.inr ⟨k', List.mem_cons_of_mem k hk', hv⟩
        · rintro (h | ⟨k', hk', v, hv⟩)
          · exact Or.inl h
          · rcases List.mem_cons.mp hk' with rfl | hk''
            · rw [hk] at hv
              simp at hv
            · exact Or.inr ⟨k', hk'', v, hv⟩

theorem foldKeys_nonempty (d : List (List Char × JsVal)) (keys : List (List Char))
    (acc : List (List Char × List Char) × Bool)
    (hinv : acc.2 = true → acc.1 ≠ []) :
    (keys.foldl (stepEventKey d) acc).2 = true → (keys.foldl (stepEventKey d) acc).1 ≠ [] := by
  induction keys generalizing acc with
  | nil => exact hinv
  | cons k keys ih =>
    simp only [List.foldl_cons]
    apply ih
    rcases hk : jsGet d k with _ | val
    · rw [show stepEventKey d acc k = acc by simp [stepEventKey, hk]]
      exact hinv
    · rcases val with v | _
      · rw [show stepEventKey d acc k = (recSet acc.1 k v, true) by simp [stepEventKey, hk]]
        intro _
        exact recSet_ne_nil acc.1 k v
      · rw [show stepEventKey d acc k = acc by simp [stepEventKey, hk]]
        exact hinv

/-- **C9.** Entity extraction distinguishes absent from empty:
`extractEntities` returns `none` (JS `undefined`) exactly when no adjacent
segment pair matches any pattern (pattern segment followed by a non-empty
UUID-shaped segment), and `extractEntitiesFromEvent` returns `none` exactly
when no requested key holds a string value (in particular for absent data);
when something matched, the returned mapping is non-empty, contains every
matched pattern's key, and each of its entries is a matched pattern's key
paired with the identifier segment that matched it. -/
theorem extractEntities_absent_vs_empty (path : List Char) (patterns : List EntityPattern)
    (data : Option (List (List Char × JsVal))) (keys : List (List Char)) :
    (extractEntities path patterns = none ↔
      ∀ sn ∈ (path.splitOn '/').zip (path.splitOn '/').tail, ∀ p ∈ patterns,
        ¬(sn.1 = p.segment ∧ sn.2 ≠ [] ∧ UUID_RE sn.2 = true)) ∧
    (∀ m, extractEntities path patterns = some m →
      m ≠ [] ∧
      (∀ sn ∈ (path.splitOn '/').zip (path.splitOn '/').tail, ∀ p ∈ patterns,
        (sn.1 = p.segment ∧ sn.2 ≠ [] ∧ UUID_RE sn.2 = true) → p.key ∈ m.map Prod.fst) ∧
      (∀ kv ∈ m, ∃ sn ∈ (path.splitOn '/').zip (path.splitOn '/').tail, ∃ p ∈ patterns,
        sn.1 = p.segment ∧ sn.2 ≠ [] ∧ UUID_RE sn.2 = true ∧ kv = (p.key, sn.2))) ∧
    (extractEntitiesFromEvent data keys = none ↔
      ∀ d, data = some d → ∀ k ∈ keys, ∀ v, ¬jsGet d k = some (JsVal.str v)) ∧
    (∀ m, extractEntitiesFromEvent data keys = some m → m ≠ []) := by
  refine ⟨?_, ?_, ?_, ?_⟩
  · constructor
    · intro hnone sn hsn p hp hh
      by_cases hf : (((path.splitOn '/').zip (path.splitOn '/').tail).foldl
          (stepSegmentPair patterns) ([], false)).2 = true
      · simp only [extractEntities] at hnone
        rw [if_pos hf] at hnone
        exact Option.noConfusion hnone
      · exact hf ((foldPairs_found patterns _ _).mpr (Or.inr ⟨sn, hsn, p, hp, hh⟩))
    · intro hall
      simp only [extractEntities]
      rw [if_neg]
      intro hf
      rcases (foldPairs_found patterns _ _).mp hf with h | ⟨sn, hsn, p, hp, hh⟩
      · simp at h
      · exact hall sn hsn p hp hh
  · intro m hm
    have hf : (((path.splitOn '/').zip (path.splitOn '/').tail).foldl
        (stepSegmentPair patterns) ([], false)).2 = true ∧
        (((path.splitOn '/').zip (path.splitOn '/').tail).foldl
          (stepSegmentPair patterns) ([], false)).1 = m := by
      simp only [extractEntities] at hm
      by_cases hf : (((path.splitOn '/').zip (path.splitOn '/').tail).foldl
          (stepSegmentPair patterns) ([], false)).2 = true
      · rw [if_pos hf] at hm
        exact ⟨hf, Option.some.inj hm⟩
      · rw [if_neg hf] at hm
        exact Option.noConfusion hm
    refine ⟨?_, ?_, ?_⟩
    · rw [← hf.2]
      exact foldPairs_nonempty patterns _ ([], false) (by simp) hf.1
    · intro sn hsn p hp hh
      rw [← hf.2]
      exact foldPairs_mem_insert patterns _ ([], false) sn p hsn hp hh
    · intro kv hkv
      rw [← hf.2] at hkv
      exact foldPairs_origin patterns _ ([], false)
        (fun kv => ∃ sn ∈ (path.splitOn '/').zip (path.splitOn '/').tail, ∃ p ∈ patterns,
          sn.1 = p.segment ∧ sn.2 ≠ [] ∧ UUID_RE sn.2 = true ∧ kv = (p.key, sn.2))
        (by simp)
        (fun sn hsn p hp hh => ⟨sn, hsn, p, hp, hh.1, hh.2.1, hh.2.2, rfl⟩) kv hkv
  · cases data with
    | none =>
      constructor
      · intro _ d hd
        exact Option.noConfusion hd
      · intro _
        rfl
    | some d =>
      constructor
      · intro hnone d' hd' k hk v hv
        have hd'' : d = d' := Option.some.inj hd'
        subst hd''
        by_cases hf : (keys.foldl (stepEventKey d) ([], false)).2 = true
        · simp only [extractEntitiesFromEvent] at hnone
          rw [if_pos hf] at hnone
          exact Option.noConfusion hnone
        · exact hf ((foldKeys_found d keys _).mpr (Or.inr ⟨k, hk, v, hv⟩))
      · intro hall
        simp only [extractEntitiesFromEvent]
        rw [if_neg]
        intro hf
        rcases (foldKeys_found d keys _).mp hf with h | ⟨k, hk, v, hv⟩
        · simp at h
        · exact hall d rfl k hk v hv
  · intro m hm
    cases data with
    | none => simp [extractEntitiesFromEvent] at hm
    | some d =>
      have hf : (keys.foldl (stepEventKey d) ([], false)).2 = true ∧
          (keys.foldl (stepEventKey d) ([], false)).1 = m := by
        simp only [extractEntitiesFromEvent] at hm
        by_cases hf : (keys.foldl (stepEventKey d) ([], false)).2 = true
        · rw [if_pos hf] at hm
          exact ⟨hf, Option.some.inj hm⟩
        · rw [if_neg hf] at hm
          exact Option.noConfusion hm
      rw [← hf.2]
      exact foldKeys_nonempty d keys ([], false) (by simp) hf.1

/-- Witness for C9: a path carrying one UUID after a `users` segment yields
a non-empty mapping holding that pattern's key; the theorem's `some` case is
applied at that concrete extraction. -/
theorem extractEntities_absent_vs_empty_witness :
    extractEntities "/api/users/123e4567-e89b-12d3-a456-426614174000".toList
        [⟨"users".toList, "userId".toList⟩] =
      some [("userId".toList, "123e4567-e89b-12d3-a456-426614174000".toList)] ∧
    [("userId".toList, "123e4567-e89b-12d3-a456-426614174000".toList)] ≠
      ([] : List (List Char × List Char)) ∧
    "userId".toList ∈
      [("userId".toList, "123e4567-e89b-12d3-a456-426614174000".toList)].map Prod.fst := by
  have h := (extractEntities_absent_vs_empty
    "/api/users/123e4567-e89b-12d3-a456-426614174000".toList
    [⟨"users".toList, "userId".toList⟩] none []).2.1
    [("userId".toList, "123e4567-e89b-12d3-a456-426614174000".toList)] (by decide)
  exact ⟨by decide, h.1, h.2.1 ("users".toList, "123e4567-e89b-12d3-a456-426614174000".toList)
    (by decide) ⟨"users".toList, "userId".toList⟩ (by decide) (by decide)⟩
